import Mathlib

/-!
Shallow embedding of the iced layout/widget core analysed here:
the `Column` container widget (`src/native/src/widget/column.rs`) and the
custom `Rainbow` widget of the geometry example
(`src/examples/geometry/src/main.rs`).

Scalar quantities (`f32` in the source) are modelled as rationals `ℚ`;
the `f32::INFINITY` default of `max_width` is modelled with `WithTop ℚ`.
Types and functions that live outside the two analysed source files
(`Limits`, `Length`, the flex resolver, `event::Status`, `Tree`,
`mouse::Interaction`, the renderer capability) are modelled from the
specification, as indicated on each definition.
-/

namespace Iced

/-- 2D size, width and height (both `f32` in the source, modelled as `ℚ`). -/
structure Size where
  width : ℚ
  height : ℚ
  deriving Repr, DecidableEq

/-- The zero size. -/
def Size.ZERO : Size := ⟨0, 0⟩

/-- A 2D point. -/
structure Point where
  x : ℚ
  y : ℚ
  deriving Repr, DecidableEq

/-- A 2D translation vector. -/
structure Vector where
  x : ℚ
  y : ℚ
  deriving Repr, DecidableEq

/-- An axis-aligned rectangle: origin plus size. -/
structure Rect where
  x : ℚ
  y : ℚ
  width : ℚ
  height : ℚ
  deriving Repr, DecidableEq

/-- Modelled from the spec: `Rectangle::contains` is not among the analysed
sources; membership is taken half-open on the far edges. -/
def Rect.contains (r : Rect) (p : Point) : Bool :=
  decide (r.x ≤ p.x) && decide (p.x < r.x + r.width) &&
    decide (r.y ≤ p.y) && decide (p.y < r.y + r.height)

/-- The size of a rectangle. -/
def Rect.size (r : Rect) : Size := ⟨r.width, r.height⟩

/-- Rust `clamp`: clamp `v` into `[lo, hi]`. -/
def clampQ (v lo hi : ℚ) : ℚ :=
  if v < lo then lo else if hi < v then hi else v

/-- Rust `max` on rationals. -/
def qmax (a b : ℚ) : ℚ := if a ≤ b then b else a

/-- Modelled from the spec: the length-specification enum (`Length` is not
among the analysed sources). Variants: fixed, fill, fill-with-weight,
shrink-to-content, and the spec's bounded-fill (`FillMax`). -/
inductive Length where
  | Fill : Length
  | FillPortion : ℕ → Length
  | Shrink : Length
  | Fixed : ℚ → Length
  | FillMax : ℚ → Length
  deriving Repr, DecidableEq

/-- The fill weight of a length policy: `Fill` counts as weight 1, other
non-portion policies as 0. -/
def Length.fillFactor : Length → ℕ
  | .Fill => 1
  | .FillPortion w => w
  | .FillMax _ => 1
  | .Shrink => 0
  | .Fixed _ => 0

/-- Modelled from the spec: `Limits` (not among the analysed sources) is a
min/max size window; the fill flags record, per axis, whether the axis was
narrowed by a fill-type policy, so that `resolve` returns the max on that
axis. -/
structure Limits where
  min : Size
  max : Size
  fillW : Bool
  fillH : Bool
  deriving Repr, DecidableEq

/-- Modelled from the spec: narrow the width axis by a length policy.
`Fixed` clamps min = max = px bounded by the incoming max; fill-type
policies fill to the max; `Shrink` leaves min at 0 and max unchanged. -/
def Limits.width (l : Limits) (len : Length) : Limits :=
  match len with
  | .Shrink => { l with min := ⟨0, l.min.height⟩, fillW := false }
  | .Fill => { l with fillW := true }
  | .FillPortion _ => { l with fillW := true }
  | .FillMax px =>
    { l with max := ⟨if px < l.max.width then px else l.max.width, l.max.height⟩,
             fillW := true }
  | .Fixed px =>
    let w := if px < l.max.width then px else l.max.width
    { l with min := ⟨w, l.min.height⟩, max := ⟨w, l.max.height⟩, fillW := true }

/-- Modelled from the spec: narrow the height axis by a length policy. -/
def Limits.height (l : Limits) (len : Length) : Limits :=
  match len with
  | .Shrink => { l with min := ⟨l.min.width, 0⟩, fillH := false }
  | .Fill => { l with fillH := true }
  | .FillPortion _ => { l with fillH := true }
  | .FillMax px =>
    { l with max := ⟨l.max.width, if px < l.max.height then px else l.max.height⟩,
             fillH := true }
  | .Fixed px =>
    let h := if px < l.max.height then px else l.max.height
    { l with min := ⟨l.min.width, h⟩, max := ⟨l.max.width, h⟩, fillH := true }

/-- Modelled from the spec: convert a narrowed `Limits` into a concrete
size. On a fill axis the max is returned; otherwise the provided default
content size, clamped into `[min, max]`. -/
def Limits.resolve (l : Limits) (default : Size) : Size :=
  ⟨if l.fillW then l.max.width
   else clampQ default.width l.min.width l.max.width,
   if l.fillH then l.max.height
   else clampQ default.height l.min.height l.max.height⟩

/-- A layout node: positioned, sized bounds plus positioned children. -/
inductive Node where
  | mk : Rect → List Node → Node

/-- The bounds of a layout node. -/
def Node.bounds : Node → Rect
  | .mk b _ => b

/-- The children of a layout node. -/
def Node.childNodes : Node → List Node
  | .mk _ cs => cs

/-- `Node::new`: a childless node at the origin with the given size. -/
def Node.new (s : Size) : Node := .mk ⟨0, 0, s.width, s.height⟩ []

/-- The size of a layout node. -/
def Node.size (n : Node) : Size := ⟨n.bounds.width, n.bounds.height⟩

/-- `Node::move_to`: reposition a node, keeping size and children. -/
def Node.moveTo (n : Node) (p : Point) : Node :=
  .mk ⟨p.x, p.y, n.bounds.width, n.bounds.height⟩ n.childNodes

/-- Four-sided inset (`Padding`). -/
structure Padding where
  top : ℚ
  right : ℚ
  bottom : ℚ
  left : ℚ
  deriving Repr, DecidableEq

/-- `Padding::ZERO`. -/
def Padding.ZERO : Padding := ⟨0, 0, 0, 0⟩

/-- Cross-axis alignment. -/
inductive Alignment where
  | Start : Alignment
  | Center : Alignment
  | End : Alignment
  | Fill : Alignment
  deriving Repr, DecidableEq

/-- Modelled from the spec: two-valued event dispatch outcome. -/
inductive Status where
  | Ignored : Status
  | Captured : Status
  deriving Repr, DecidableEq

/-- Modelled from the spec: `event::Status::merge` (not among the analysed
sources) folds two statuses with `Captured` dominating. -/
def Status.merge : Status → Status → Status
  | .Ignored, .Ignored => .Ignored
  | _, _ => .Captured

/-- An input event, opaque at this level. -/
abbrev Event := ℕ

/-- An application message pushed to the shell, opaque at this level. -/
abbrev Msg := ℕ

/-- Modelled from the spec: `mouse::Interaction` (not among the analysed
sources) is an ordered enumeration of cursor hints whose `Default` is
`Idle`. -/
inductive Interaction where
  | Idle : Interaction
  | Pointer : Interaction
  | Grab : Interaction
  | Text : Interaction
  | Crosshair : Interaction
  | Working : Interaction
  | Grabbing : Interaction
  | ResizingHorizontally : Interaction
  | ResizingVertically : Interaction
  deriving Repr, DecidableEq

/-- Rank of an interaction in the derived ordering. -/
def Interaction.toNat : Interaction → ℕ
  | .Idle => 0
  | .Pointer => 1
  | .Grab => 2
  | .Text => 3
  | .Crosshair => 4
  | .Working => 5
  | .Grabbing => 6
  | .ResizingHorizontally => 7
  | .ResizingVertically => 8

/-- Rust `Ord::max` on interactions (derived ordering by variant rank). -/
def Interaction.max (a b : Interaction) : Interaction :=
  if a.toNat ≤ b.toNat then b else a

/-- A state-tree node (`widget::Tree`): opaque per-node state content plus
child subtrees, matched to widget children by position. -/
inductive STree where
  | mk : ℕ → List STree → STree

/-- The opaque state content of a state-tree node. -/
def STree.content : STree → ℕ
  | .mk c _ => c

/-- The child subtrees of a state-tree node. -/
def STree.childTrees : STree → List STree
  | .mk _ cs => cs

/-- A child element, modelled by its behaviour under the widget composition
protocol: the sizing policies it reports, and pure functions for measure,
layout, event handling (status plus shell messages), mouse-cursor hinting,
state diffing and fresh state construction (`Tree::new`). -/
structure Element where
  width : Length
  height : Length
  measure : Limits → Size
  layout : Limits → Node
  onEvent : Event → Status × List Msg
  mouseInteraction : Point → Rect → Interaction
  diffFn : STree → STree
  freshTree : STree

/-- The `Column` container widget: builder-configured spacing, padding,
width/height policies, maximum width, cross-axis alignment and ordered
children. -/
structure Column where
  spacing : ℚ
  padding : Padding
  width : Length
  height : Length
  max_width : WithTop ℚ
  align_items : Alignment
  children : List Element

/-- `Column::with_children`: a column with the given elements and default
configuration. -/
def Column.with_children (children : List Element) : Column :=
  { spacing := 0
    padding := Padding.ZERO
    width := .Shrink
    height := .Shrink
    max_width := ⊤
    align_items := .Start
    children := children }

/-- `Column::new`: an empty column. -/
def Column.new : Column := Column.with_children []

/-- `impl Default for Column`. -/
def Column.default : Column := Column.new

/-- `Column::spacing` setter. -/
def Column.spacing' (c : Column) (amount : ℚ) : Column :=
  { c with spacing := amount }

/-- `Column::padding` setter. -/
def Column.padding' (c : Column) (p : Padding) : Column :=
  { c with padding := p }

/-- `Column::width` setter. -/
def Column.width' (c : Column) (w : Length) : Column :=
  { c with width := w }

/-- `Column::height` setter. -/
def Column.height' (c : Column) (h : Length) : Column :=
  { c with height := h }

/-- `Column::max_width` setter (takes a finite pixel amount). -/
def Column.max_width' (c : Column) (m : ℚ) : Column :=
  { c with max_width := (m : WithTop ℚ) }

/-- `Column::align_items` setter. -/
def Column.align_items' (c : Column) (a : Alignment) : Column :=
  { c with align_items := a }

/-- `Column::push`: append one child element. -/
def Column.push (c : Column) (child : Element) : Column :=
  { c with children := c.children ++ [child] }

/-- Main axis of a flex container. -/
inductive Axis where
  | Horizontal : Axis
  | Vertical : Axis
  deriving Repr, DecidableEq

/-- Main-axis component of a size. -/
def Axis.main : Axis → Size → ℚ
  | .Horizontal, s => s.width
  | .Vertical, s => s.height

/-- Cross-axis component of a size. -/
def Axis.cross : Axis → Size → ℚ
  | .Horizontal, s => s.height
  | .Vertical, s => s.width

/-- Build a size from main- and cross-axis components. -/
def Axis.pack : Axis → ℚ → ℚ → Size
  | .Horizontal, m, c => ⟨m, c⟩
  | .Vertical, m, c => ⟨c, m⟩

/-- Build a point from main- and cross-axis offsets. -/
def Axis.packPoint : Axis → ℚ → ℚ → Point
  | .Horizontal, m, c => ⟨m, c⟩
  | .Vertical, m, c => ⟨c, m⟩

/-- Total padding along the main axis. -/
def Axis.mainPad : Axis → Padding → ℚ
  | .Horizontal, p => p.left + p.right
  | .Vertical, p => p.top + p.bottom

/-- Total padding along the cross axis. -/
def Axis.crossPad : Axis → Padding → ℚ
  | .Horizontal, p => p.top + p.bottom
  | .Vertical, p => p.left + p.right

/-- Main-axis start offset (leading padding). -/
def Axis.mainStart : Axis → Padding → ℚ
  | .Horizontal, p => p.left
  | .Vertical, p => p.top

/-- Cross-axis start offset (leading padding). -/
def Axis.crossStart : Axis → Padding → ℚ
  | .Horizontal, p => p.top
  | .Vertical, p => p.left

/-- Whether the container fills its cross axis, read off the narrowed
limits. -/
def Axis.crossFill : Axis → Limits → Bool
  | .Horizontal, l => l.fillH
  | .Vertical, l => l.fillW

/-- The main-axis length policy a child reports to the resolver. -/
def Axis.mainLen : Axis → Element → Length
  | .Horizontal, e => e.width
  | .Vertical, e => e.height

/-- Resolver mode: measure-only or full layout. -/
inductive LayoutMode where
  | MeasureSize : LayoutMode
  | PerformLayout : LayoutMode
  deriving Repr, DecidableEq

/-- Query one child under the given limits: its size, and (in
`PerformLayout` mode) its layout node. -/
def measureOrLayout (mode : LayoutMode) (item : Element) (l : Limits) :
    Size × Node :=
  match mode with
  | .MeasureSize => (item.measure l, Node.new (item.measure l))
  | .PerformLayout =>
    let n := item.layout l
    (n.size, n)

/-- Modelled from the spec: first sizing pass of the flex resolver
(`layout::flex::resolve` is not among the analysed sources). Children with
fill weight 0 are measured with the main axis reduced to the space still
available, which accumulates downward as each one consumes its extent;
fill-weighted children are skipped, their weights summed. Returns the
per-item results (`none` for skipped fill children), the space left over,
and the total fill weight. -/
def flexPass1 (axis : Axis) (crossAvail : ℚ) (mode : LayoutMode) :
    List Element → ℚ → List (Option (Size × Node)) × ℚ × ℕ
  | [], avail => ([], avail, 0)
  | item :: rest, avail =>
    let w := (axis.mainLen item).fillFactor
    if w = 0 then
      let childLimits : Limits :=
        ⟨Size.ZERO, axis.pack avail crossAvail, false, false⟩
      let r := measureOrLayout mode item childLimits
      let tail := flexPass1 axis crossAvail mode rest (avail - axis.main r.1)
      (some r :: tail.1, tail.2.1, tail.2.2)
    else
      let tail := flexPass1 axis crossAvail mode rest avail
      (none :: tail.1, tail.2.1, tail.2.2 + w)

/-- Modelled from the spec: divide the remaining main-axis space `R`
proportionally among the fill weights, the last fill child absorbing the
difference between `R` and the portions already handed out, so the total
matches `R` exactly. -/
def fillAllocs (R W : ℚ) : List ℕ → ℚ → List ℚ
  | [], _ => []
  | [_], used => [R - used]
  | w :: rest, used =>
    let a := R * (w : ℚ) / W
    a :: fillAllocs R W rest (used + a)

/-- Modelled from the spec: second sizing pass. Pass-1 results are kept;
each fill child is measured with its main axis clamped to its allotted
portion. -/
def flexPass2 (axis : Axis) (crossAvail : ℚ) (mode : LayoutMode) :
    List Element → List (Option (Size × Node)) → List ℚ → List (Size × Node)
  | [], _, _ => []
  | _ :: _, [], _ => []
  | item :: rest, slot :: srest, allocs =>
    match slot with
    | some r => r :: flexPass2 axis crossAvail mode rest srest allocs
    | none =>
      match allocs with
      | [] => []
      | a :: arest =>
        let childLimits : Limits :=
          ⟨Size.ZERO, axis.pack a crossAvail, false, false⟩
        let r := measureOrLayout mode item childLimits
        r :: flexPass2 axis crossAvail mode rest srest arest

/-- Modelled from the spec: sequential main-axis placement with cross-axis
alignment offset; each child advances the cursor by its own main extent
plus the spacing. -/
def alignOffset (align : Alignment) (space childSize : ℚ) : ℚ :=
  match align with
  | .Start => 0
  | .Fill => 0
  | .Center => (space - childSize) / 2
  | .End => space - childSize

/-- Modelled from the spec: position the resolved children sequentially
along the main axis starting at the leading padding, cross-axis placement
following the alignment. -/
def positionChildren (axis : Axis) (padding : Padding) (spacing : ℚ)
    (align : Alignment) (crossResult : ℚ) :
    List (Size × Node) → ℚ → List Node
  | [], _ => []
  | (sz, node) :: rest, mainOffset =>
    let crossOff :=
      axis.crossStart padding + alignOffset align crossResult (axis.cross sz)
    node.moveTo (axis.packPoint mainOffset crossOff) ::
      positionChildren axis padding spacing align crossResult rest
        (mainOffset + axis.main sz + spacing)

/-- Modelled from the spec: the flex resolver. Computes the available
main-axis space (outer max minus padding minus total spacing), runs the
two sizing passes, takes the container cross size as the max of the
children's cross extents unless the container itself fills or fixes the
cross axis, clamps the padded totals into the outer limits, and in
`PerformLayout` mode positions the children. Zero children produce a size
of the padding only, with no spacing. -/
def flexResolve (axis : Axis) (limits : Limits) (padding : Padding)
    (spacing : ℚ) (align : Alignment) (items : List Element)
    (mode : LayoutMode) : Node :=
  let n := items.length
  let totalSpacing : ℚ := if n = 0 then 0 else spacing * ((n : ℚ) - 1)
  let padMain := axis.mainPad padding
  let padCross := axis.crossPad padding
  let availTotal := axis.main limits.max - padMain - totalSpacing
  let crossAvail := axis.cross limits.max - padCross
  let p1 := flexPass1 axis crossAvail mode items availTotal
  let remaining := p1.2.1
  let sumW := p1.2.2
  let fillWeights :=
    (items.filter fun it => (axis.mainLen it).fillFactor ≠ 0).map
      fun it => (axis.mainLen it).fillFactor
  let allocs := fillAllocs remaining (sumW : ℚ) fillWeights 0
  let results := flexPass2 axis crossAvail mode items p1.1 allocs
  let crossContent := (results.map fun r => axis.cross r.1).foldl qmax 0
  let crossResult := if axis.crossFill limits then crossAvail else crossContent
  let mainContent :=
    (results.map fun r => axis.main r.1).foldl (· + ·) 0 + totalSpacing
  let intrinsic := axis.pack (mainContent + padMain) (crossResult + padCross)
  let finalSize : Size :=
    ⟨clampQ intrinsic.width limits.min.width limits.max.width,
     clampQ intrinsic.height limits.min.height limits.max.height⟩
  match mode with
  | .MeasureSize => .mk ⟨0, 0, finalSize.width, finalSize.height⟩ []
  | .PerformLayout =>
    .mk ⟨0, 0, finalSize.width, finalSize.height⟩
      (positionChildren axis padding spacing align crossResult results
        (axis.mainStart padding))

/-- `Widget::layout` for `Column`: narrow the limits by the column's own
width and height policies and delegate to the flex resolver on the
vertical axis in `PerformLayout` mode. The `max_width` field is not
consulted here (faithful to the source). -/
def Column.layout (c : Column) (limits : Limits) : Node :=
  flexResolve .Vertical ((limits.width c.width).height c.height)
    c.padding c.spacing c.align_items c.children .PerformLayout

/-- `Widget::measure` for `Column`: same narrowing, resolver in
`MeasureSize` mode, returning only the size. -/
def Column.measure (c : Column) (limits : Limits) : Size :=
  (flexResolve .Vertical ((limits.width c.width).height c.height)
    c.padding c.spacing c.align_items c.children .MeasureSize).size

/-- `Widget::children` for `Column`: a fresh state subtree per child
(`Tree::new`). -/
def Column.childrenTrees (c : Column) : List STree :=
  c.children.map fun ch => ch.freshTree

/-- Modelled from the spec: `Tree::diff_children` (not among the analysed
sources) reconciles the state children to the widget children by position:
matched positions delegate to the child's own diff, trailing excess state
is discarded, missing state is default-constructed via `Tree::new`. -/
def diff_children : List Element → List STree → List STree
  | [], _ => []
  | w :: ws, [] => w.freshTree :: diff_children ws []
  | w :: ws, t :: ts => w.diffFn t :: diff_children ws ts

/-- `Widget::diff` for `Column`: `tree.diff_children(&self.children)`. -/
def Column.diff (c : Column) (t : STree) : STree :=
  .mk t.content (diff_children c.children t.childTrees)

/-- `Widget::on_event` for `Column`: deliver the event to every child,
appending each child's shell messages, and fold the statuses with
`Status::merge` starting from `Ignored`. -/
def Column.on_event (c : Column) (e : Event) (shell : List Msg) :
    Status × List Msg :=
  c.children.foldl
    (fun acc child =>
      (Status.merge acc.1 (child.onEvent e).1, acc.2 ++ (child.onEvent e).2))
    (Status.Ignored, shell)

/-- `Widget::mouse_interaction` for `Column`: the maximum of the children's
interactions (`.max()`), or the default (`Idle`) when there are none
(`.unwrap_or_default()`). -/
def Column.mouse_interaction (c : Column) (cursor : Point) (viewport : Rect) :
    Interaction :=
  match c.children.map fun ch => ch.mouseInteraction cursor viewport with
  | [] => Interaction.Idle
  | x :: xs => xs.foldl Interaction.max x

/-- A coloured 2D vertex: position and RGBA colour. -/
structure ColoredVertex2D where
  position : ℚ × ℚ
  color : ℚ × ℚ × ℚ × ℚ
  deriving Repr, DecidableEq

/-- A renderer-agnostic draw command (mesh, quad, ...). -/
inductive Primitive where
  | SolidMesh : Size → List ColoredVertex2D → List ℕ → Primitive
  | Quad : Rect → Primitive
  deriving Repr, DecidableEq

/-- Whether a primitive is a solid mesh. -/
def Primitive.isSolidMesh : Primitive → Bool
  | .SolidMesh _ _ _ => true
  | _ => false

/-- Number of vertices of a primitive. -/
def Primitive.vertexCount : Primitive → ℕ
  | .SolidMesh _ vs _ => vs.length
  | _ => 0

/-- Number of indices of a primitive. -/
def Primitive.indexCount : Primitive → ℕ
  | .SolidMesh _ _ is => is.length
  | _ => 0

/-- Modelled from the spec: the renderer collaborator capability (not among
the analysed sources). It records the current translation and the emitted
primitives, each tagged with the translation active when it was emitted. -/
structure Renderer where
  translation : Vector
  primitives : List (Vector × Primitive)

/-- Modelled from the spec: `draw_primitive` appends one primitive under
the current translation. -/
def Renderer.draw_primitive (r : Renderer) (p : Primitive) : Renderer :=
  { r with primitives := r.primitives ++ [(r.translation, p)] }

/-- Modelled from the spec: `with_translation` temporarily offsets the
translation inside the scoped block and restores it on exit. -/
def Renderer.with_translation (r : Renderer) (v : Vector)
    (f : Renderer → Renderer) : Renderer :=
  let inner := f { r with translation := ⟨r.translation.x + v.x, r.translation.y + v.y⟩ }
  { inner with translation := r.translation }

/-- `Widget::width` for `Rainbow`. -/
def Rainbow.width : Length := .Fill

/-- `Widget::height` for `Rainbow`. -/
def Rainbow.height : Length := .Shrink

/-- `Rainbow::layout`: resolve `Length::Fill` against the limits and return
a childless node whose width and height are both that resolved width. -/
def Rainbow.layout (limits : Limits) : Node :=
  let size := (limits.width .Fill).resolve Size.ZERO
  Node.new ⟨size.width, size.width⟩

/-- The solid mesh `Rainbow::draw` builds from its bounds and the cursor:
nine vertices (centre plus eight rim points expressed relative to the
bounds) and twenty-four indices forming eight triangles. -/
def rainbowMesh (b : Rect) (cursor : Point) : Primitive :=
  let color_r : ℚ × ℚ × ℚ × ℚ := (1, 0, 0, 1)
  let color_o : ℚ × ℚ × ℚ × ℚ := (1, 0.5, 0, 1)
  let color_y : ℚ × ℚ × ℚ × ℚ := (1, 1, 0, 1)
  let color_g : ℚ × ℚ × ℚ × ℚ := (0, 1, 0, 1)
  let color_gb : ℚ × ℚ × ℚ × ℚ := (0, 1, 0.5, 1)
  let color_b : ℚ × ℚ × ℚ × ℚ := (0, 0.2, 1, 1)
  let color_i : ℚ × ℚ × ℚ × ℚ := (0.5, 0, 1, 1)
  let color_v : ℚ × ℚ × ℚ × ℚ := (0.75, 0, 0.5, 1)
  let posn_center : ℚ × ℚ :=
    if b.contains cursor then (cursor.x - b.x, cursor.y - b.y)
    else (b.width / 2, b.height / 2)
  let posn_tl : ℚ × ℚ := (0, 0)
  let posn_t : ℚ × ℚ := (b.width / 2, 0)
  let posn_tr : ℚ × ℚ := (b.width, 0)
  let posn_r : ℚ × ℚ := (b.width, b.height / 2)
  let posn_br : ℚ × ℚ := (b.width, b.height)
  let posn_b : ℚ × ℚ := (b.width / 2, b.height)
  let posn_bl : ℚ × ℚ := (0, b.height)
  let posn_l : ℚ × ℚ := (0, b.height / 2)
  .SolidMesh b.size
    [⟨posn_center, (1, 1, 1, 1)⟩,
     ⟨posn_tl, color_r⟩,
     ⟨posn_t, color_o⟩,
     ⟨posn_tr, color_y⟩,
     ⟨posn_r, color_g⟩,
     ⟨posn_br, color_gb⟩,
     ⟨posn_b, color_b⟩,
     ⟨posn_bl, color_i⟩,
     ⟨posn_l, color_v⟩]
    [0, 1, 2,
     0, 2, 3,
     0, 3, 4,
     0, 4, 5,
     0, 5, 6,
     0, 6, 7,
     0, 7, 8,
     0, 8, 1]

/-- `Rainbow::draw`: build the mesh from the layout bounds and the cursor,
then emit it inside a `with_translation` scope offset by the bounds'
origin. -/
def Rainbow.draw (layout : Node) (cursor : Point) (r : Renderer) : Renderer :=
  let b := layout.bounds
  let mesh := rainbowMesh b cursor
  r.with_translation ⟨b.x, b.y⟩ fun rr => rr.draw_primitive mesh

/-- Concrete limits: min zero, max 100 × 100, no fill flags. -/
def limits100 : Limits := ⟨Size.ZERO, ⟨100, 100⟩, false, false⟩

/-- A childless column that fills its width. -/
def colFillW : Column := (Column.with_children []).width' .Fill

/-- The same column further configured with `max_width(50)`. -/
def colMax50 : Column := colFillW.max_width' 50

/-- A child element that ignores events and reports no interaction. -/
def elemBase : Element :=
  { width := .Shrink
    height := .Shrink
    measure := fun _ => Size.ZERO
    layout := fun _ => Node.new Size.ZERO
    onEvent := fun _ => (.Ignored, [])
    mouseInteraction := fun _ _ => .Idle
    diffFn := fun s => s
    freshTree := .mk 0 [] }

/-- A child element that captures every event and pushes one message. -/
def elemCap : Element := { elemBase with onEvent := fun _ => (.Captured, [7]) }

/-- A child element whose mouse hint is `Pointer`. -/
def elemPtr : Element := { elemBase with mouseInteraction := fun _ _ => .Pointer }

/-- C1: the claim says every column configured via `max_width(m)` lays out
with bounds of width at most `m`. The code drops the constraint:
`Column::layout` never consults the `max_width` field, so the layout of
`(width Fill).max_width(50)` under max limits 100 × 100 has width 100,
exceeding the configured maximum 50. -/
theorem column_layout_drops_max_width :
    (∀ (c : Column) (m : ℚ) (l : Limits), (c.max_width' m).layout l = c.layout l) ∧
    colMax50.max_width = (50 : WithTop ℚ) ∧
    (colMax50.layout limits100).bounds.width = 100 ∧
    (50 : ℚ) < 100 := by
  refine ⟨fun c m l => rfl, rfl, ?_, by norm_num⟩
  show (flexResolve .Vertical _ _ _ _ _ _).bounds.width = 100
  simp only [colMax50, colFillW, Column.max_width', Column.width',
    Column.with_children, Column.layout, Limits.width, Limits.height,
    limits100, Size.ZERO, Padding.ZERO, flexResolve, flexPass1, flexPass2,
    fillAllocs, positionChildren, clampQ, qmax, Axis.main, Axis.cross,
    Axis.pack, Axis.packPoint, Axis.mainPad, Axis.crossPad, Axis.mainStart,
    Axis.crossStart, Axis.crossFill, Axis.mainLen, Node.bounds, List.map,
    List.filter, List.foldl, List.length]
  norm_num [Node.bounds]

/-- C4: layout is deterministic — two runs of `Column::layout` on the same
unchanged column with the same limits produce identical layout-node
trees. -/
theorem column_layout_deterministic (c : Column) (l : Limits) (n₁ n₂ : Node)
    (h₁ : n₁ = c.layout l) (h₂ : n₂ = c.layout l) : n₁ = n₂ :=
  h₁.trans h₂.symm

/-- Witness for C4 at a concrete column and limits. -/
theorem column_layout_deterministic_witness :
    Column.new.layout limits100 = Column.new.layout limits100 :=
  column_layout_deterministic Column.new limits100 _ _ rfl rfl

/-- C6: each fluent setter changes only its own field, and `push` appends
the new element at the end of the children, all other fields unchanged. -/
theorem column_setters_frame (c : Column) (s : ℚ) (p : Padding)
    (w hgt : Length) (m : ℚ) (a : Alignment) (ch : Element) :
    c.spacing' s =
      ⟨s, c.padding, c.width, c.height, c.max_width, c.align_items, c.children⟩ ∧
    c.padding' p =
      ⟨c.spacing, p, c.width, c.height, c.max_width, c.align_items, c.children⟩ ∧
    c.width' w =
      ⟨c.spacing, c.padding, w, c.height, c.max_width, c.align_items, c.children⟩ ∧
    c.height' hgt =
      ⟨c.spacing, c.padding, c.width, hgt, c.max_width, c.align_items, c.children⟩ ∧
    c.max_width' m =
      ⟨c.spacing, c.padding, c.width, c.height, (m : WithTop ℚ), c.align_items,
        c.children⟩ ∧
    c.align_items' a =
      ⟨c.spacing, c.padding, c.width, c.height, c.max_width, a, c.children⟩ ∧
    c.push ch =
      ⟨c.spacing, c.padding, c.width, c.height, c.max_width, c.align_items,
        c.children ++ [ch]⟩ :=
  ⟨rfl, rfl, rfl, rfl, rfl, rfl, rfl⟩

/-- C9: `with_children` (hence `new`) defaults to spacing 0, zero padding,
`Shrink` width and height, infinite `max_width` and `Start` alignment;
`new` is `with_children []` (so it has no children) and `Default::default`
is `new`. -/
theorem column_constructor_defaults (cs : List Element) :
    Column.with_children cs = ⟨0, Padding.ZERO, .Shrink, .Shrink, ⊤, .Start, cs⟩ ∧
    Column.new = Column.with_children [] ∧
    Column.new.children = [] ∧
    Column.default = Column.new :=
  ⟨rfl, rfl, rfl, rfl⟩

/-- C7: `Rainbow::layout` returns a single childless node whose width and
height both equal the width obtained by resolving `Length::Fill` against
the given limits, namely the full available width. -/
theorem rainbow_layout_square (l : Limits) :
    Rainbow.layout l = Node.mk ⟨0, 0, l.max.width, l.max.width⟩ [] ∧
    ((l.width .Fill).resolve Size.ZERO).width = l.max.width :=
  ⟨rfl, rfl⟩

/-- C8: `Rainbow::draw` emits exactly one primitive — a solid mesh of 9
vertices and 24 indices — inside a `with_translation` scope offset by the
bounds' origin, and the renderer's translation is restored on exit. -/
theorem rainbow_draw_single_mesh (layout : Node) (cursor : Point)
    (r : Renderer) :
    Rainbow.draw layout cursor r =
      ⟨r.translation,
       r.primitives ++
         [(⟨r.translation.x + layout.bounds.x, r.translation.y + layout.bounds.y⟩,
           rainbowMesh layout.bounds cursor)]⟩ ∧
    (rainbowMesh layout.bounds cursor).isSolidMesh = true ∧
    (rainbowMesh layout.bounds cursor).vertexCount = 9 ∧
    (rainbowMesh layout.bounds cursor).indexCount = 24 :=
  ⟨rfl, rfl, rfl, rfl⟩

/-- The event fold of `Column::on_event` decomposes into the merged status
of the per-child statuses and the concatenation of every child's shell
messages after the initial shell, in child order. -/
lemma on_event_fold (e : Event) :
    ∀ (children : List Element) (acc : Status × List Msg),
      children.foldl
        (fun acc child =>
          (Status.merge acc.1 (child.onEvent e).1, acc.2 ++ (child.onEvent e).2))
        acc =
      ((children.map fun ch => (ch.onEvent e).1).foldl Status.merge acc.1,
       acc.2 ++ ((children.map fun ch => (ch.onEvent e).2)).flatten)
  | [], acc => by simp
  | ch :: rest, acc => by
    rw [List.foldl_cons, on_event_fold e rest]
    simp [List.append_assoc]

/-- C2: `Column::on_event` delivers the event to every child exactly once,
in child order — each child's shell messages are appended exactly once, in
order, whatever statuses the children return — and the statuses are folded
with `merge` from `Ignored`. -/
theorem column_on_event_delivers_all (c : Column) (e : Event)
    (shell : List Msg) :
    c.on_event e shell =
      ((c.children.map fun ch => (ch.onEvent e).1).foldl Status.merge .Ignored,
       shell ++ ((c.children.map fun ch => (ch.onEvent e).2)).flatten) := by
  unfold Column.on_event
  exact on_event_fold e c.children (Status.Ignored, shell)

/-- A merge fold yields `Captured` exactly when the seed is `Captured` or
some folded status is. -/
lemma foldl_merge_captured :
    ∀ (l : List Status) (s : Status),
      l.foldl Status.merge s = .Captured ↔
        s = .Captured ∨ ∃ x ∈ l, x = .Captured
  | [], s => by simp
  | a :: l, s => by
    rw [List.foldl_cons, foldl_merge_captured l (Status.merge s a)]
    constructor
    · rintro (h | ⟨x, hx, rfl⟩)
      · cases s with
        | Captured => exact Or.inl rfl
        | Ignored =>
          cases a with
          | Captured => exact Or.inr ⟨.Captured, List.mem_cons_self _ _, rfl⟩
          | Ignored => exact absurd h (by simp [Status.merge])
      · exact Or.inr ⟨.Captured, List.mem_cons_of_mem _ hx, rfl⟩
    · rintro (rfl | ⟨x, hx, rfl⟩)
      · exact Or.inl (by cases a <;> rfl)
      · rcases List.mem_cons.mp hx with rfl | hx
        · exact Or.inl (by cases s <;> rfl)
        · exact Or.inr ⟨.Captured, hx, rfl⟩

/-- C3: the status `Column::on_event` returns is `Captured` iff at least
one child's handler returned `Captured`; a column with zero children
returns `Ignored`. -/
theorem column_on_event_captured_iff (c : Column) (e : Event)
    (shell : List Msg) :
    ((c.on_event e shell).1 = .Captured ↔
      ∃ ch ∈ c.children, (ch.onEvent e).1 = .Captured) ∧
    ((Column.with_children []).on_event e shell).1 = .Ignored := by
  have h1 : (c.on_event e shell).1 =
      (c.children.map fun ch => (ch.onEvent e).1).foldl Status.merge .Ignored := by
    unfold Column.on_event
    rw [on_event_fold e c.children (Status.Ignored, shell)]
  refine ⟨?_, rfl⟩
  rw [h1, foldl_merge_captured]
  simp

/-- Witness for C3: a column with one capturing child reports `Captured`. -/
theorem column_on_event_captured_iff_witness :
    ((Column.with_children [elemCap]).on_event 0 []).1 = .Captured :=
  (column_on_event_captured_iff (Column.with_children [elemCap]) 0 []).1.mpr
    ⟨elemCap, List.mem_singleton.mpr rfl, rfl⟩

/-- `diff_children` produces one state entry per widget child. -/
lemma diff_children_length :
    ∀ (ws : List Element) (ts : List STree),
      (diff_children ws ts).length = ws.length
  | [], _ => rfl
  | _ :: ws, [] => by
    rw [diff_children, List.length_cons, List.length_cons,
      diff_children_length ws []]
  | _ :: ws, _ :: ts => by
    rw [diff_children, List.length_cons, List.length_cons,
      diff_children_length ws ts]

/-- Entry-wise characterisation of `diff_children`: a matched position is
the child's own diff of the old entry, a missing position is the child's
fresh tree, positions past the widget count do not exist. -/
lemma diff_children_getElem :
    ∀ (ws : List Element) (ts : List STree) (i : ℕ),
      (diff_children ws ts)[i]? =
        match ws[i]?, ts[i]? with
        | some w, some t => some (w.diffFn t)
        | some w, none => some w.freshTree
        | none, _ => none
  | [], ts, i => by cases ts <;> cases i <;> rfl
  | w :: ws, [], 0 => by simp [diff_children]
  | w :: ws, [], i + 1 => by
    rw [diff_children]
    simpa using diff_children_getElem ws [] i
  | w :: ws, t :: ts, 0 => by simp [diff_children]
  | w :: ws, t :: ts, i + 1 => by
    rw [diff_children]
    simpa using diff_children_getElem ws ts i

/-- C5: `Column::diff` keeps the state node's own content, resizes the
state children to the widget child count, leaves the content of matched
positions undisturbed (given that each child's own diff preserves
content), and default-constructs the missing trailing entries. -/
theorem column_diff_reconciles (c : Column) (t : STree)
    (h : ∀ ch ∈ c.children, ∀ s : STree, (ch.diffFn s).content = s.content) :
    (c.diff t).content = t.content ∧
    (c.diff t).childTrees.length = c.children.length ∧
    (∀ i : ℕ, i < c.children.length → i < t.childTrees.length →
      ((c.diff t).childTrees[i]?).map STree.content =
        (t.childTrees[i]?).map STree.content) ∧
    (∀ i : ℕ, t.childTrees.length ≤ i →
      (c.diff t).childTrees[i]? = (c.children[i]?).map Element.freshTree) := by
  refine ⟨rfl, diff_children_length c.children t.childTrees, ?_, ?_⟩
  · intro i hw ht
    have hgw := List.getElem?_eq_getElem hw
    have hgt := List.getElem?_eq_getElem ht
    have hmem : c.children[i] ∈ c.children := List.getElem_mem hw
    show (diff_children c.children t.childTrees)[i]?.map STree.content = _
    rw [diff_children_getElem c.children t.childTrees i, hgw, hgt]
    simp [h c.children[i] hmem]
  · intro i hi
    have hgt : t.childTrees[i]? = none := List.getElem?_eq_none hi
    show (diff_children c.children t.childTrees)[i]? = _
    rw [diff_children_getElem c.children t.childTrees i, hgt]
    cases c.children[i]? <;> rfl

/-- A concrete state tree with three child entries. -/
def treeD : STree := .mk 5 [.mk 1 [], .mk 2 [], .mk 3 []]

/-- A column with a single child, to be diffed against `treeD`. -/
def colD : Column := Column.with_children [elemBase]

/-- Witness for C5: diffing a three-entry state tree against a one-child
column, with the child's diff the identity. -/
theorem column_diff_reconciles_witness :
    (colD.diff treeD).content = treeD.content ∧
    (colD.diff treeD).childTrees.length = colD.children.length ∧
    (∀ i : ℕ, i < colD.children.length → i < treeD.childTrees.length →
      ((colD.diff treeD).childTrees[i]?).map STree.content =
        (treeD.childTrees[i]?).map STree.content) ∧
    (∀ i : ℕ, treeD.childTrees.length ≤ i →
      (colD.diff treeD).childTrees[i]? = (colD.children[i]?).map Element.freshTree) :=
  column_diff_reconciles colD treeD
    (by
      intro ch hch s
      rw [show colD.children = [elemBase] from rfl, List.mem_singleton] at hch
      subst hch
      rfl)

/-- `Interaction.max` ranks as the maximum of the two ranks. -/
lemma toNat_interaction_max (a b : Interaction) :
    (Interaction.max a b).toNat = Nat.max a.toNat b.toNat := by
  unfold Interaction.max
  by_cases h : a.toNat ≤ b.toNat
  · rw [if_pos h]
    exact (Nat.max_eq_right h).symm
  · rw [if_neg h]
    exact (Nat.max_eq_left (Nat.le_of_not_le h)).symm

/-- `Interaction.max` returns one of its arguments. -/
lemma interaction_max_choice (a b : Interaction) :
    Interaction.max a b = a ∨ Interaction.max a b = b := by
  unfold Interaction.max
  split
  · exact Or.inr rfl
  · exact Or.inl rfl

/-- A max fold over interactions lands on the seed or on a list element. -/
lemma foldl_interaction_max_mem :
    ∀ (xs : List Interaction) (x : Interaction),
      xs.foldl Interaction.max x ∈ x :: xs
  | [], x => List.mem_singleton.mpr rfl
  | y :: ys, x => by
    rw [List.foldl_cons]
    have h := foldl_interaction_max_mem ys (Interaction.max x y)
    rcases List.mem_cons.mp h with h | h
    · rw [h]
      rcases interaction_max_choice x y with h2 | h2 <;> rw [h2]
      · exact List.mem_cons_self _ _
      · exact List.mem_cons_of_mem _ (List.mem_cons_self _ _)
    · exact List.mem_cons_of_mem _ (List.mem_cons_of_mem _ h)

/-- The seed rank never exceeds the rank of a max fold. -/
lemma seed_le_foldl_interaction :
    ∀ (xs : List Interaction) (x : Interaction),
      x.toNat ≤ (xs.foldl Interaction.max x).toNat
  | [], _ => Nat.le_refl _
  | y :: ys, x => by
    rw [List.foldl_cons]
    have h1 : x.toNat ≤ (Interaction.max x y).toNat := by
      rw [toNat_interaction_max]
      exact Nat.le_max_left _ _
    exact Nat.le_trans h1 (seed_le_foldl_interaction ys (Interaction.max x y))

/-- A max fold over interactions bounds the seed and every list element. -/
lemma le_foldl_interaction_max :
    ∀ (xs : List Interaction) (x v : Interaction),
      v = x ∨ v ∈ xs → v.toNat ≤ (xs.foldl Interaction.max x).toNat
  | [], x, v, h => by
    rcases h with rfl | h
    · exact Nat.le_refl _
    · cases h
  | y :: ys, x, v, h => by
    rw [List.foldl_cons]
    rcases h with rfl | h
    · have h1 : v.toNat ≤ (Interaction.max v y).toNat := by
        rw [toNat_interaction_max]
        exact Nat.le_max_left _ _
      exact Nat.le_trans h1 (seed_le_foldl_interaction ys _)
    · rcases List.mem_cons.mp h with rfl | h
      · have h1 : v.toNat ≤ (Interaction.max x v).toNat := by
          rw [toNat_interaction_max]
          exact Nat.le_max_right _ _
        exact Nat.le_trans h1 (seed_le_foldl_interaction ys _)
      · exact le_foldl_interaction_max ys (Interaction.max x y) v (Or.inr h)

/-- C10: `Column::mouse_interaction` returns the maximum of the children's
interactions under the ordering on `Interaction` — it is one of the
children's results (unless there are none) and bounds them all — and a
column with zero children returns the default `Idle`. -/
theorem column_mouse_interaction_max (c : Column) (cursor : Point)
    (vp : Rect) :
    (c.mouse_interaction cursor vp ∈
        c.children.map (fun ch => ch.mouseInteraction cursor vp) ∨
      c.children = []) ∧
    (∀ ch ∈ c.children,
      (ch.mouseInteraction cursor vp).toNat ≤
        (c.mouse_interaction cursor vp).toNat) ∧
    (Column.with_children []).mouse_interaction cursor vp = .Idle := by
  refine ⟨?_, ?_, rfl⟩
  · cases hc : c.children with
    | nil => exact Or.inr rfl
    | cons a as =>
      left
      rw [Column.mouse_interaction, hc, List.map_cons]
      exact foldl_interaction_max_mem _ _
  · intro ch hch
    rw [Column.mouse_interaction]
    cases hc : c.children with
    | nil => rw [hc] at hch; cases hch
    | cons a as =>
      rw [hc] at hch
      rcases List.mem_cons.mp hch with rfl | hch
      · exact le_foldl_interaction_max _ _ _ (Or.inl rfl)
      · exact le_foldl_interaction_max _ _ _
          (Or.inr (List.mem_map_of_mem _ hch))

/-- A column with two children, one idle and one pointer. -/
def colM : Column := Column.with_children [elemBase, elemPtr]

/-- Witness for C10 at a concrete column, cursor and viewport. -/
theorem column_mouse_interaction_max_witness :
    (colM.mouse_interaction ⟨0, 0⟩ ⟨0, 0, 10, 10⟩ ∈
        colM.children.map (fun ch => ch.mouseInteraction ⟨0, 0⟩ ⟨0, 0, 10, 10⟩) ∨
      colM.children = []) ∧
    (∀ ch ∈ colM.children,
      (ch.mouseInteraction ⟨0, 0⟩ ⟨0, 0, 10, 10⟩).toNat ≤
        (colM.mouse_interaction ⟨0, 0⟩ ⟨0, 0, 10, 10⟩).toNat) ∧
    (Column.with_children []).mouse_interaction ⟨0, 0⟩ ⟨0, 0, 10, 10⟩ = .Idle :=
  column_mouse_interaction_max colM ⟨0, 0⟩ ⟨0, 0, 10, 10⟩

end Iced
